import Mathlib

/-! Verification of the `hashes.com` API client (`hashes_client.py`).

The client's operations are embedded shallowly: Python scalar values become
an inductive `PyVal`, dict-shaped records become association lists, machine
floats become exact rationals, raised exceptions become `Except PyErr`, and
external effects (HTTP transport, the wall clock, the destination file) are
passed in explicitly as oracle arguments and threaded state. -/

set_option maxRecDepth 8000

/-- Python scalar values that flow through the client's dict-shaped records. -/
inductive PyVal where
  | vint (n : ℤ)
  | vfloat (q : ℚ)
  | vstr (s : String)
  | vnone
deriving DecidableEq

/-- Python exceptions the client code raises or catches. -/
inductive PyErr where
  | typeError
  | valueError
  | keyError
  | hashesApiError (msg : String)
deriving DecidableEq

instance [DecidableEq ε] [DecidableEq α] : DecidableEq (Except ε α)
  | .ok a, .ok b =>
      match decEq a b with
      | isTrue h => isTrue (by rw [h])
      | isFalse h => isFalse (by intro hh; cases hh; exact h rfl)
  | .ok _, .error _ => isFalse (by intro hh; cases hh)
  | .error _, .ok _ => isFalse (by intro hh; cases hh)
  | .error a, .error b =>
      match decEq a b with
      | isTrue h => isTrue (by rw [h])
      | isFalse h => isFalse (by intro hh; cases hh; exact h rfl)

/-- A Python dict with string keys, in insertion order. -/
abbrev PyDict := List (String × PyVal)

/-- Python `s1 < s2` on the underlying code points, structurally. -/
def listLtChar : List Char → List Char → Bool
  | [], [] => false
  | [], _ :: _ => true
  | _ :: _, [] => false
  | a :: as, b :: bs =>
      if a.toNat < b.toNat then true
      else if b.toNat < a.toNat then false
      else listLtChar as bs

/-- Python `s1 < s2` on strings: code-point lexicographic order. -/
def pyStrLt (s t : String) : Bool := listLtChar s.data t.data

/-- Python `str.lower()` on the ASCII data this client handles. -/
def pyCharLower (c : Char) : Char :=
  if 65 ≤ c.toNat && c.toNat ≤ 90 then Char.ofNat (c.toNat + 32) else c

/-- Python `str.lower()`. -/
def pyLower (s : String) : String := String.mk (s.data.map pyCharLower)

/-- Python `str.upper()` on the ASCII data this client handles. -/
def pyCharUpper (c : Char) : Char :=
  if 97 ≤ c.toNat && c.toNat ≤ 122 then Char.ofNat (c.toNat - 32) else c

/-- Python `str.upper()`. -/
def pyUpper (s : String) : String := String.mk (s.data.map pyCharUpper)

/-- Python falsiness of a string: true exactly on the empty string. -/
def pyEmpty (s : String) : Bool := s.data.isEmpty

/-- `d.get(k)` with no default: `none` models Python `None` for an absent key. -/
def dget (d : PyDict) (k : String) : Option PyVal :=
  (d.find? (fun e => e.1 == k)).map (fun e => e.2)

/-- The whitespace characters `str.strip()` removes. -/
def isPySpace (c : Char) : Bool :=
  c == ' ' || c == '\t' || c == '\n' || c == '\r' || c == '\x0b' || c == '\x0c'

/-- Python `str.strip()`. -/
def pyStrip (s : String) : String :=
  String.mk (((s.data.dropWhile isPySpace).reverse.dropWhile isPySpace).reverse)

/-- The value of a nonempty all-digit character run. -/
def natOfDigits (cs : List Char) : ℕ :=
  cs.foldl (fun a c => 10 * a + (c.toNat - 48)) 0

/-- `natOfDigits` guarded: `some` exactly on nonempty all-digit runs. -/
def digitsToNat (cs : List Char) : Option ℕ :=
  if cs.isEmpty then none
  else if cs.all Char.isDigit then some (natOfDigits cs) else none

/-- Python `int(s)` on a string: optional surrounding whitespace, an optional
sign, then decimal digits; anything else raises ValueError (`none`). -/
def pyParseInt (s : String) : Option ℤ :=
  match (pyStrip s).data with
  | '+' :: rest => (digitsToNat rest).map (fun n => (n : ℤ))
  | '-' :: rest => (digitsToNat rest).map (fun n => -(n : ℤ))
  | l => (digitsToNat l).map (fun n => (n : ℤ))

/-- The exponent suffix of a float literal: a sign and then digits. -/
def pyReadExp (m : ℚ) (t : List Char) : Option ℚ :=
  let p := match t with
    | '+' :: u => ((1 : ℤ), u)
    | '-' :: u => ((-1 : ℤ), u)
    | u => ((1 : ℤ), u)
  if p.2.isEmpty || !p.2.all Char.isDigit then none
  else some (m * (10 : ℚ) ^ (p.1 * (natOfDigits p.2 : ℤ)))

/-- After the mantissa of a float literal: nothing, or an exponent marker. -/
def pyParseExpPart (m : ℚ) : List Char → Option ℚ
  | [] => some m
  | 'e' :: t => pyReadExp m t
  | 'E' :: t => pyReadExp m t
  | _ => none

/-- The unsigned body of a Python float literal: `digits`, `digits.digits`,
`.digits` or `digits.`, with an optional exponent. -/
def pyParseFloatBody (cs : List Char) : Option ℚ :=
  let ip := cs.takeWhile Char.isDigit
  let r1 := cs.dropWhile Char.isDigit
  match r1 with
  | '.' :: t =>
      let fp := t.takeWhile Char.isDigit
      let r2 := t.dropWhile Char.isDigit
      if ip.isEmpty && fp.isEmpty then none
      else pyParseExpPart ((natOfDigits ip : ℚ) + (natOfDigits fp : ℚ) / ((10 : ℚ) ^ fp.length)) r2
  | _ => if ip.isEmpty then none else pyParseExpPart (natOfDigits ip : ℚ) r1

/-- Python `float(s)` on a string, restricted to finite decimal literals
(`inf` and `nan` have no rational value and do not occur in this client's
data). `none` models a raised ValueError. -/
def pyParseFloat (s : String) : Option ℚ :=
  match (pyStrip s).data with
  | '+' :: rest => pyParseFloatBody rest
  | '-' :: rest => (pyParseFloatBody rest).map (fun q => -q)
  | l => pyParseFloatBody l

/-- The builtin `float(value)`: numbers pass through, strings are parsed
(ValueError on failure), `None` raises TypeError. -/
def pyFloat : PyVal → Except PyErr ℚ
  | .vint n => .ok (n : ℚ)
  | .vfloat q => .ok q
  | .vstr s =>
      match pyParseFloat s with
      | some q => .ok q
      | none => .error .valueError
  | .vnone => .error .typeError

/-- The builtin `str(value)` on the values this client passes to it (the
client only ever applies it to string and integer fields). -/
def pyStrOf : PyVal → String
  | .vstr s => s
  | .vint n => toString n
  | .vfloat q => toString q
  | .vnone => "None"

/-- `hash_list` of `lookup_hashes`: entries are stripped, blank and empty
entries are dropped, duplicates are kept. -/
def hashList (hashes : List String) : List String :=
  (hashes.filter (fun h => !pyEmpty h && !pyEmpty (pyStrip h))).map pyStrip

/-- `HashesClient.lookup_hashes` up to its input validation; `ok` carries the
hash list that the subsequent POST to `/search` would send. -/
def lookup_hashes (hashes : List String) : Except PyErr (List String) :=
  let hash_list := hashList hashes
  if hash_list.isEmpty then
    .error (.hashesApiError "Please provide at least one hash to search.")
  else if hash_list.length > 250 then
    .error (.hashesApiError "The API allows up to 250 hashes per lookup request.")
  else .ok hash_list

/-- The deduplicated, trimmed input set the documented validation rule
speaks of (spec wording; the source keeps duplicates). -/
def dedupTrimmedSet (hashes : List String) : List String :=
  (hashList hashes).dedup

/-- Round to the nearest integer, ties to even, as `%.3f` formatting does. -/
def roundHalfEven (q : ℚ) : ℤ :=
  let f := Int.floor q
  let r := q - (f : ℚ)
  if r < 1 / 2 then f
  else if r > 1 / 2 then f + 1
  else if f % 2 = 0 then f else f + 1

/-- A natural number below 1000 printed with three digits. -/
def pad3 (n : ℕ) : String :=
  if n < 10 then "00" ++ toString n
  else if n < 100 then "0" ++ toString n
  else toString n

/-- `f"{q:.3f}"`: a rational printed with exactly three decimal places. -/
def format3 (q : ℚ) : String :=
  let m := roundHalfEven (q * 1000)
  let sign := if m < 0 then "-" else ""
  sign ++ toString (m.natAbs / 1000) ++ "." ++ pad3 (m.natAbs % 1000)

/-- `HashesClient.convert_to_usd`. The conversion-rate fetch is supplied as
`ratesResult`, the outcome `get_conversion_rates` would produce (it can
raise `HashesApiError` when the cache is cold and the request fails). -/
def convert_to_usd (ratesResult : Except PyErr PyDict) (value : PyVal) (currency : String) :
    Except PyErr String :=
  if pyLower currency == "credits" then .ok "N/A"
  else
    match ratesResult with
    | .error e => .error e
    | .ok rates =>
        match dget rates (pyUpper currency) with
        | none => .ok "$0.00"
        | some rv =>
            match pyFloat value with
            | .error e => .error e
            | .ok v =>
                match pyFloat rv with
                | .error e => .error e
                | .ok r => .ok ("$" ++ format3 (v * r))

/-- The two cache fields of `HashesClient` that back `get_conversion_rates`. -/
structure ConvCache where
  conversion_cache : Option PyDict
  conversion_cache_at : ℚ
deriving DecidableEq

/-- What one call to `get_conversion_rates` produces: the returned table,
the cache state after the call, and whether a remote fetch happened. -/
structure RatesCall where
  result : PyDict
  state : ConvCache
  fetched : Bool
deriving DecidableEq

/-- `HashesClient.get_conversion_rates`: `now` is `time.time()` and
`fetchPayload` is the payload a (successful) `/conversion` request returns.
The cached table is reused only while it is truthy — a nonempty dict —
and younger than `cache_seconds`. -/
def get_conversion_rates (st : ConvCache) (now : ℚ) (fetchPayload : PyDict)
    (cache_seconds : ℚ) : RatesCall :=
  match st.conversion_cache with
  | some c =>
      if !c.isEmpty && now - st.conversion_cache_at < cache_seconds then
        ⟨c, st, false⟩
      else ⟨fetchPayload, ⟨some fetchPayload, now⟩, true⟩
  | none => ⟨fetchPayload, ⟨some fetchPayload, now⟩, true⟩

/-- The value `HashesClient._sort_value` returns: a Python int, float, or
string, later compared by Python's `<` during `sorted`. -/
inductive SKey where
  | kint (n : ℤ)
  | kfloat (q : ℚ)
  | kstr (s : String)
deriving DecidableEq

/-- `HashesClient._sort_value` applied to `row.get(sortby)` (absent keys give
Python `None`): `None` becomes the empty string, numbers pass through,
strings are tried as int, then float, then lowercased. -/
def sort_value : Option PyVal → SKey
  | none => .kstr ""
  | some .vnone => .kstr ""
  | some (.vint n) => .kint n
  | some (.vfloat q) => .kfloat q
  | some (.vstr s) =>
      match pyParseInt s with
      | some n => .kint n
      | none =>
          match pyParseFloat s with
          | some q => .kfloat q
          | none => .kstr (pyLower s)

/-- The exact rational a numeric sort key denotes (0 on strings, unused). -/
def SKey.qval : SKey → ℚ
  | .kint n => (n : ℚ)
  | .kfloat q => q
  | .kstr _ => 0

/-- The string a string sort key holds ("" on numbers, unused). -/
def SKey.sval : SKey → String
  | .kstr s => s
  | _ => ""

/-- Whether a sort key is a string (numbers and strings are not comparable). -/
def SKey.isStr : SKey → Bool
  | .kstr _ => true
  | _ => false

/-- Python `a < b` on two sort keys: numeric values compare by exact value,
strings compare lexicographically, and a string against a number raises
TypeError. -/
def pyLt : SKey → SKey → Except PyErr Bool
  | .kint m, .kint n => .ok (decide (m < n))
  | .kint m, .kfloat q => .ok (decide ((m : ℚ) < q))
  | .kfloat p, .kint n => .ok (decide (p < (n : ℚ)))
  | .kfloat p, .kfloat q => .ok (decide (p < q))
  | .kstr s, .kstr t => .ok (pyStrLt s t)
  | _, _ => .error .typeError

/-- The Boolean value of a successful key comparison (false on TypeError). -/
def ltB (a b : SKey) : Bool :=
  match pyLt a b with
  | .ok t => t
  | .error _ => false

/-- Stable insertion into an already-built list, comparisons in `Except`:
the inserted element goes before the first element it compares strictly
below, hence after every equal one (Python's sort is stable). -/
def insertE (lt : α → α → Except PyErr Bool) (a : α) : List α → Except PyErr (List α)
  | [] => .ok [a]
  | b :: bs =>
      match lt a b with
      | .error e => .error e
      | .ok true => .ok (a :: b :: bs)
      | .ok false =>
          match insertE lt a bs with
          | .error e => .error e
          | .ok r => .ok (b :: r)

/-- Python `sorted` modelled as a stable insertion sort whose comparisons
may raise: elements are taken in list order, so equal keys stay in their
original relative order, and any TypeError aborts the sort. -/
def sortE (lt : α → α → Except PyErr Bool) (xs : List α) : Except PyErr (List α) :=
  xs.foldlM (fun acc a => insertE lt a acc) []

/-- Pure counterpart of `insertE`, for inputs whose comparisons all succeed. -/
def insertP (lt : α → α → Bool) (a : α) : List α → List α
  | [] => [a]
  | b :: bs => if lt a b then a :: b :: bs else b :: insertP lt a bs

/-- Pure counterpart of `sortE`. -/
def sortP (lt : α → α → Bool) (xs : List α) : List α :=
  xs.foldl (fun acc a => insertP lt a acc) []

/-- The sort key of one job row for a given `sortby` column. -/
def jobKey (sortby : String) (row : PyDict) : SKey :=
  sort_value (dget row sortby)

/-- The row comparison `sorted(jobs, key=..., reverse=...)` performs:
ascending compares the keys in order, descending (stable) compares them
swapped. -/
def jobLt (sortby : String) (rev : Bool) (r1 r2 : PyDict) : Except PyErr Bool :=
  if rev then pyLt (jobKey sortby r2) (jobKey sortby r1)
  else pyLt (jobKey sortby r1) (jobKey sortby r2)

/-- Python truthiness of an optional filter set: `None` and the empty set
are both falsy, so neither filters. -/
def truthy : Option (List String) → Bool
  | none => false
  | some l => !l.isEmpty

/-- The two post-fetch filters of `get_jobs`: uppercase currency membership,
then exact algorithm-id string membership. -/
def filterJobs (currency_filter algorithm_filter : Option (List String))
    (jobs : List PyDict) : List PyDict :=
  let jobs1 :=
    if truthy currency_filter then
      jobs.filter (fun job =>
        (currency_filter.getD []).contains (pyUpper (pyStrOf ((dget job "currency").getD (.vstr "")))))
    else jobs
  if truthy algorithm_filter then
    jobs1.filter (fun job =>
      (algorithm_filter.getD []).contains (pyStrOf ((dget job "algorithmId").getD (.vstr ""))))
  else jobs1

/-- `HashesClient.get_jobs` after the `/jobs` fetch: `payloadList` is the
payload's job list; filters are applied, then the stable sort (which can
raise TypeError on a column that mixes numbers and strings). -/
def get_jobs (payloadList : List PyDict) (sortby : String) (rev : Bool)
    (currency_filter algorithm_filter : Option (List String)) :
    Except PyErr (List PyDict) :=
  sortE (jobLt sortby rev) (filterJobs currency_filter algorithm_filter payloadList)

/-- The fields of a job record that `download_left_lists` reads (per the data
model, `id` is an integer and `leftList` a relative URL path string). -/
structure DJob where
  id : ℤ
  leftList : String
deriving DecidableEq

/-- Outcome of the HTTP GET inside `_stream_download`, as an oracle over URL
paths: `httpError` is a connection failure or non-2xx status raised before
the destination file is opened; `stream` opens the file and writes the given
chunks, then raises an OSError carrying `err` if it is present (a partial
write). -/
inductive FetchOutcome where
  | httpError (msg : String)
  | stream (chunks : List (List ℕ)) (err : Option String)
deriving DecidableEq

/-- The message of the HashesApiError `_stream_download` raises on a
transport failure. -/
def downloadFailMsg (url_path msg : String) : String :=
  "Failed downloading '" ++ url_path ++ "': " ++ msg

/-- The message of the HashesApiError `_stream_download` raises on an
OSError while writing the destination. -/
def writeFailMsg (destination msg : String) : String :=
  "Failed writing file '" ++ destination ++ "': " ++ msg

/-- `HashesClient._stream_download`: the first component is the destination
file's contents afterwards (truncated first unless `append`), the second the
byte count written, or the message of the raised HashesApiError. -/
def stream_download (fetch : String → FetchOutcome) (url_path destination : String)
    (file : List ℕ) (append : Bool) : List ℕ × Except String ℕ :=
  match fetch url_path with
  | .httpError m => (file, .error (downloadFailMsg url_path m))
  | .stream chunks err =>
      let written := chunks.flatten
      let newFile := (if append then file else []) ++ written
      match err with
      | none => (newFile, .ok written.length)
      | some e => (newFile, .error (writeFailMsg destination e))

/-- The loop state of `download_left_lists`: destination contents,
`bytes_written`, the `failed` list, and the `append` flag. -/
structure DlState where
  file : List ℕ
  bytes_written : ℕ
  failed : List (ℤ × String)
  append : Bool
deriving DecidableEq

/-- One iteration of the `download_left_lists` loop: a job without a left
list is recorded as failed; otherwise the download runs, a success adds its
bytes and turns the append flag on, and a raised error is recorded as
`(job id, message)` while the append flag is left as it was. -/
def dlStep (fetch : String → FetchOutcome) (destination : String)
    (st : DlState) (job : DJob) : DlState :=
  if job.leftList == "" then
    { st with failed := st.failed ++ [(job.id, "No left list URL")] }
  else
    match stream_download fetch job.leftList destination st.file st.append with
    | (f, .ok n) => ⟨f, st.bytes_written + n, st.failed, true⟩
    | (f, .error e) => { st with file := f, failed := st.failed ++ [(job.id, e)] }

/-- `HashesClient.download_left_lists`: `file0` is the destination's prior
contents; the result is the destination's contents afterwards and either the
raised HashesApiError (empty job list) or `(bytes_written, failed)`. The
inter-request delay is pure timing and the progress callback pure
notification; neither affects the data, so neither is modelled. -/
def download_left_lists (fetch : String → FetchOutcome) (jobs : List DJob)
    (destination : String) (file0 : List ℕ) :
    List ℕ × Except String (ℕ × List (ℤ × String)) :=
  if jobs.isEmpty then (file0, .error "No jobs were selected for download.")
  else
    let fin := jobs.foldl (dlStep fetch destination) ⟨file0, 0, [], false⟩
    (fin.file, .ok (fin.bytes_written, fin.failed))

/-- The failure entry one job contributes, if any. -/
def jobFailEntry (fetch : String → FetchOutcome) (destination : String)
    (j : DJob) : Option (ℤ × String) :=
  if j.leftList == "" then some (j.id, "No left list URL")
  else
    match fetch j.leftList with
    | .httpError m => some (j.id, downloadFailMsg j.leftList m)
    | .stream _ none => none
    | .stream _ (some e) => some (j.id, writeFailMsg destination e)

/-- Whether a job downloads successfully. -/
def jobSuccess (fetch : String → FetchOutcome) (j : DJob) : Bool :=
  !(j.leftList == "") &&
    (match fetch j.leftList with
     | .stream _ none => true
     | _ => false)

/-- The bytes a successful job writes (empty for a failed or skipped job). -/
def jobOkChunks (fetch : String → FetchOutcome) (j : DJob) : List ℕ :=
  if j.leftList == "" then []
  else
    match fetch j.leftList with
    | .stream chunks none => chunks.flatten
    | _ => []

/-- A job that either succeeds cleanly or fails before writing anything:
it has a URL and its fetch is not a partial write. -/
def cleanJob (fetch : String → FetchOutcome) (j : DJob) : Bool :=
  !(j.leftList == "") &&
    (match fetch j.leftList with
     | .stream _ (some _) => false
     | _ => true)

/-- A caller-visible parameter container: a dict, or a list of pairs. -/
inductive PyContainer where
  | pdict (entries : List (String × PyVal))
  | plist (entries : List (String × PyVal))
deriving DecidableEq

/-- The mutable store holding parameter containers; an address is an index. -/
abbrev Heap := List PyContainer

/-- Read a container (addresses used are always in range). -/
def heapGet (h : Heap) (a : ℕ) : PyContainer := h.getD a (.pdict [])

/-- Overwrite the container at an address. -/
def heapSet (h : Heap) (a : ℕ) (c : PyContainer) : Heap := h.set a c

/-- Allocate a fresh container, returning its address. -/
def heapAlloc (h : Heap) (c : PyContainer) : Heap × ℕ := (h ++ [c], h.length)

/-- Python `d[k] = v` on a dict's entries: an existing key keeps its
position and gets the new value, a new key is appended. -/
def dsetEntries (es : List (String × PyVal)) (k : String) (v : PyVal) :
    List (String × PyVal) :=
  if es.any (fun e => e.1 == k) then es.map (fun e => if e.1 == k then (k, v) else e)
  else es ++ [(k, v)]

/-- The entries of a container. -/
def entriesOf : PyContainer → List (String × PyVal)
  | .pdict es => es
  | .plist es => es

/-- `isinstance(c, dict)`. -/
def isDict : PyContainer → Bool
  | .pdict _ => true
  | .plist _ => false

/-- What one `_request_json` call produces: the heap afterwards, the JSON
result or raised error, and how many transport requests were issued. -/
structure RequestOut where
  heap : Heap
  result : Except PyErr PyDict
  transport_calls : ℕ

def BASE_API_URL : String := "https://hashes.com/en/api"

/-- `HashesClient._request_json` through its one transport request. The
caller's `params`/`data` containers live in `h` at the given addresses
(`none` models an omitted argument). The response handling — status check,
JSON decoding, the `success` flag — is folded into the `transport` oracle,
whose `Except` outcome the call returns. The oracle receives the method,
the URL, the final query parameters (`none` when empty, as the source passes
`None`), and the final body container. -/
def request_json
    (transport : String → String → Option (List (String × PyVal)) →
      Option PyContainer → Except PyErr PyDict)
    (h : Heap) (api_key path method : String)
    (params data : Option ℕ) (requires_api_key : Bool) : RequestOut :=
  if requires_api_key && pyEmpty api_key then
    ⟨h, .error (.hashesApiError "An API key is required for this action."), 0⟩
  else
    let paramsEntries := match params with
      | none => []
      | some a => entriesOf (heapGet h a)
    let al1 := heapAlloc h (.pdict paramsEntries)
    let h1 := al1.1
    let rp := al1.2
    let step2 : Heap × Option ℕ :=
      if requires_api_key then
        if pyUpper method == "GET" then
          (heapSet h1 rp (.pdict (dsetEntries paramsEntries "key" (.vstr api_key))), data)
        else
          match data with
          | none =>
              let ala := heapAlloc h1 (.pdict [])
              let alb := heapAlloc ala.1 (.pdict (entriesOf (heapGet ala.1 ala.2)))
              (heapSet alb.1 alb.2
                 (.pdict (dsetEntries (entriesOf (heapGet alb.1 alb.2)) "key" (.vstr api_key))),
               some alb.2)
          | some a =>
              if isDict (heapGet h1 a) then
                let alb := heapAlloc h1 (.pdict (entriesOf (heapGet h1 a)))
                (heapSet alb.1 alb.2
                   (.pdict (dsetEntries (entriesOf (heapGet alb.1 alb.2)) "key" (.vstr api_key))),
                 some alb.2)
              else
                let alb := heapAlloc h1 (.plist (entriesOf (heapGet h1 a)))
                (heapSet alb.1 alb.2
                   (.plist (entriesOf (heapGet alb.1 alb.2) ++ [("key", .vstr api_key)])),
                 some alb.2)
      else (h1, data)
    let h2 := step2.1
    let finalParams := entriesOf (heapGet h2 rp)
    let paramsArg := if finalParams.isEmpty then none else some finalParams
    ⟨h2, transport (pyUpper method) (BASE_API_URL ++ path) paramsArg ((step2.2).map (heapGet h2)), 1⟩

/-- The credential state of a `HashesClient`. -/
structure HashesClient where
  api_key : String
deriving DecidableEq

/-- `HashesClient.__init__`: the supplied key is stored stripped. -/
def HashesClient.init (api_key : String) : HashesClient := ⟨pyStrip api_key⟩

/-- `HashesClient.set_api_key`: the replacement key is stored stripped. -/
def set_api_key (_c : HashesClient) (api_key : String) : HashesClient := ⟨pyStrip api_key⟩

/-- Python dict assignment on a string→string dict. -/
def dsetStr (es : List (String × String)) (k v : String) : List (String × String) :=
  if es.any (fun e => e.1 == k) then es.map (fun e => if e.1 == k then (k, v) else e)
  else es ++ [(k, v)]

/-- `HashesClient.get_algorithms` applied to the payload's "list" items:
builds the id→name dict with `str` keys and values; an item missing either
field raises KeyError (which nothing below catches). -/
def get_algorithms (items : List PyDict) : Except PyErr (List (String × String)) :=
  items.foldlM (fun acc item =>
    match dget item "id", dget item "algorithmName" with
    | some i, some n => .ok (dsetStr acc (pyStrOf i) (pyStrOf n))
    | _, _ => .error .keyError) []

/-- `str.isdigit()`: nonempty and all digits. -/
def pyIsDigitStr (s : String) : Bool := !s.data.isEmpty && s.data.all Char.isDigit

/-- The sort key `fetch_and_update_algorithms_file` uses: numeric ids by
value, non-numeric ids as 999999, ties broken by the id string. -/
def algSortKey (e : String × String) : ℤ × String :=
  (if pyIsDigitStr e.1 then (natOfDigits e.1.data : ℤ) else 999999, e.1)

/-- Strict lexicographic comparison of two entries' sort keys. -/
def algLt (a b : String × String) : Bool :=
  decide ((algSortKey a).1 < (algSortKey b).1) ||
    (decide ((algSortKey a).1 = (algSortKey b).1) && pyStrLt (algSortKey a).2 (algSortKey b).2)

/-- What one `fetch_and_update_algorithms_file` call produces: the returned
`(success, algorithms)` pair, and the content handed to the file write, if
one was attempted (the serialized JSON text is modelled by the sorted entry
list it prints). -/
structure SyncResult where
  success : Bool
  algorithms : List (String × String)
  written : Option (List (String × String))
deriving DecidableEq

/-- `HashesClient.fetch_and_update_algorithms_file`: `algResult` is the
outcome of the `get_algorithms()` call inside the `try`, and `writeOk`
whether `file_path.write_text` succeeds. A HashesApiError is caught and
degrades to `(False, {})`, as does an OSError from the write; an empty
table returns `(False, {})` before any write. -/
def fetch_and_update_algorithms_file (algResult : Except PyErr (List (String × String)))
    (writeOk : Bool) : Except PyErr SyncResult :=
  match algResult with
  | .error (.hashesApiError _) => .ok ⟨false, [], none⟩
  | .error e => .error e
  | .ok algorithms =>
      if algorithms.isEmpty then .ok ⟨false, [], none⟩
      else
        let sorted_algs := sortP algLt algorithms
        if writeOk then .ok ⟨true, algorithms, some sorted_algs⟩
        else .ok ⟨false, [], some sorted_algs⟩

/-! Claim theorems. -/

/-- C2 counterexample: 251 copies of the same hash give a deduplicated,
trimmed set of exactly one entry — within the documented 1..250 bound —
yet `lookup_hashes` rejects the batch, because the source counts the
stripped list with duplicates kept. -/
theorem C2_counterexample :
    1 ≤ (dedupTrimmedSet (List.replicate 251 "a")).length
    ∧ (dedupTrimmedSet (List.replicate 251 "a")).length ≤ 250
    ∧ lookup_hashes (List.replicate 251 "a") =
        .error (.hashesApiError "The API allows up to 250 hashes per lookup request.") :=
  ⟨by decide, by decide, by decide⟩

/-- C2 (amended): `lookup_hashes` validates the trimmed, filtered list with
duplicates kept: empty gives the EmptyInput error, more than 250 entries
(counted with multiplicity) gives the BatchTooLarge error, and otherwise
validation succeeds with exactly that list. For duplicate-free input this
coincides with the deduplicated-set rule, so 250 distinct hashes pass and
251 distinct hashes fail. -/
theorem C2_lookup_validation (hashes : List String) :
    (hashList hashes = [] →
      lookup_hashes hashes = .error (.hashesApiError "Please provide at least one hash to search."))
    ∧ (hashList hashes ≠ [] → (hashList hashes).length ≤ 250 →
      lookup_hashes hashes = .ok (hashList hashes))
    ∧ ((hashList hashes).length > 250 →
      lookup_hashes hashes = .error (.hashesApiError "The API allows up to 250 hashes per lookup request.")) := by
  refine ⟨fun h0 => ?_, fun h1 h2 => ?_, fun h3 => ?_⟩
  · simp [lookup_hashes, h0]
  · have : (hashList hashes).isEmpty = false := by
      simpa [List.isEmpty_iff] using h1
    simp [lookup_hashes, this]
    omega
  · have hne : (hashList hashes).isEmpty = false := by
      cases hl : hashList hashes with
      | nil => rw [hl] at h3; simp at h3
      | cons x xs => simp [hl]
    simp [lookup_hashes, hne, h3]

/-- C2 witness: a three-entry input whose blank entry is dropped passes
validation and returns the two stripped hashes. -/
theorem C2_lookup_validation_witness :
    hashList ["a1 ", "  ", "b2"] ≠ []
    ∧ (hashList ["a1 ", "  ", "b2"]).length ≤ 250
    ∧ lookup_hashes ["a1 ", "  ", "b2"] = .ok ["a1", "b2"] :=
  ⟨by decide, by decide, (C2_lookup_validation ["a1 ", "  ", "b2"]).2.1 (by decide) (by decide)⟩

/-- C3 counterexample: with a cached USD rate present, an amount string that
is not numeric makes `convert_to_usd` raise ValueError (from
`float(value)`), refuting "for every amount and currency, convertToUsd
never raises". -/
theorem C3_counterexample :
    convert_to_usd (.ok [("USD", .vstr "1.0")]) (.vstr "abc") "USD" = .error .valueError := by
  decide

/-- C3 (amended): `convert_to_usd` is total on the documented inputs —
"credits" in any casing yields the `N/A` sentinel without consulting the
rates, an unknown currency yields `$0.00` once the rates fetch succeeded,
and a numeric amount with a numeric matched rate yields the dollar-prefixed
product formatted to three decimals; but it does raise when the amount or
the matched rate fails float conversion, or when the rates fetch itself
fails for a non-credits currency. -/
theorem C3_convert_sentinels (ratesResult : Except PyErr PyDict) (rates : PyDict)
    (value rv : PyVal) (currency : String) (v r : ℚ) :
    (pyLower currency = "credits" → convert_to_usd ratesResult value currency = .ok "N/A")
    ∧ (pyLower currency ≠ "credits" → dget rates (pyUpper currency) = none →
        convert_to_usd (.ok rates) value currency = .ok "$0.00")
    ∧ (pyLower currency ≠ "credits" → dget rates (pyUpper currency) = some rv →
        pyFloat value = .ok v → pyFloat rv = .ok r →
        convert_to_usd (.ok rates) value currency = .ok ("$" ++ format3 (v * r))) := by
  refine ⟨fun h0 => ?_, fun h1 h2 => ?_, fun h1 h2 h3 h4 => ?_⟩
  · simp [convert_to_usd, h0]
  · simp [convert_to_usd, h1, h2]
  · simp [convert_to_usd, h1, h2, h3, h4]

/-- C3 witness: the three sentinel/format paths at concrete inputs. -/
theorem C3_convert_sentinels_witness :
    convert_to_usd (.error (.hashesApiError "down")) (.vint 100) "Credits" = .ok "N/A"
    ∧ convert_to_usd (.ok [("BTC", .vstr "2")]) (.vint 100) "ZZZ" = .ok "$0.00"
    ∧ convert_to_usd (.ok [("BTC", .vstr "2")]) (.vint 100) "btc" =
        .ok ("$" ++ format3 (((100 : ℤ) : ℚ) * ((2 : ℕ) : ℚ))) :=
  ⟨(C3_convert_sentinels (.error (.hashesApiError "down")) [] .vnone .vnone "Credits" 0 0).1 (by decide),
   (C3_convert_sentinels (.ok [("BTC", .vstr "2")]) [("BTC", .vstr "2")] (.vint 100) .vnone "ZZZ" 0 0).2.1
     (by decide) (by decide),
   (C3_convert_sentinels (.ok [("BTC", .vstr "2")]) [("BTC", .vstr "2")] (.vint 100) (.vstr "2")
       "btc" ((100 : ℤ) : ℚ) ((2 : ℕ) : ℚ)).2.2 (by decide) (by decide) rfl rfl⟩

/-- C4: `_sort_value` turns absent values into the empty string and
numeric-looking strings into their numeric value, so "10" orders after "9"
in either direction; but a column that mixes a numeric-looking value with a
text value makes the comparison — and hence `get_jobs`' sort — raise
TypeError instead of sorting, contradicting the documented intent that
mixed numeric/text columns sort stably without error. -/
theorem C4_sort_value_eval :
    sort_value (some (.vstr "9")) = .kint 9
    ∧ sort_value (some (.vstr "10")) = .kint 10
    ∧ sort_value none = .kstr ""
    ∧ sort_value (some (.vstr "abc")) = .kstr "abc"
    ∧ pyLt (sort_value (some (.vstr "9"))) (sort_value (some (.vstr "10"))) = .ok true
    ∧ pyLt (sort_value (some (.vstr "10"))) (sort_value (some (.vstr "9"))) = .ok false
    ∧ pyLt (sort_value (some (.vstr "abc"))) (sort_value (some (.vstr "10"))) = .error .typeError
    ∧ get_jobs [[("k", .vstr "10")], [("k", .vstr "9")]] "k" false none none =
        .ok [[("k", .vstr "9")], [("k", .vstr "10")]]
    ∧ get_jobs [[("k", .vstr "abc")], [("k", .vstr "10")]] "k" false none none =
        .error .typeError := by
  decide

/-- C5 counterexample: an empty cached table fetched at time 0 is inside
the 60-second window at time 1, yet `get_conversion_rates` performs a new
remote fetch, because an empty dict is falsy — refuting "returns the
in-memory table unchanged, with no remote fetch, whenever
now - lastFetchTime < ttlSeconds". -/
theorem C5_counterexample :
    (1 : ℚ) - 0 < 60
    ∧ (get_conversion_rates ⟨some [], 0⟩ 1 [("BTC", .vstr "2")] 60).fetched = true :=
  ⟨by norm_num, by decide⟩

/-- C5 (amended): a cached table that is nonempty and younger than the TTL
is returned unchanged with no fetch and no state change; a stale (or empty,
or absent) table triggers exactly one fetch whose payload replaces the
whole table and timestamp together. -/
theorem C5_cache_ttl (st : ConvCache) (c fetchPayload : PyDict) (now ttl : ℚ) :
    (st.conversion_cache = some c → c ≠ [] → now - st.conversion_cache_at < ttl →
      get_conversion_rates st now fetchPayload ttl = ⟨c, st, false⟩)
    ∧ (¬ now - st.conversion_cache_at < ttl →
      get_conversion_rates st now fetchPayload ttl = ⟨fetchPayload, ⟨some fetchPayload, now⟩, true⟩) := by
  constructor
  · intro hc hne hlt
    have hemp : c.isEmpty = false := by
      rcases c with _ | ⟨x, xs⟩
      · simp at hne
      · simp
    simp [get_conversion_rates, hc, hemp, hlt]
  · intro hge
    rcases hcc : st.conversion_cache with _ | c'
    · simp [get_conversion_rates, hcc]
    · simp [get_conversion_rates, hcc, hge]

/-- C5 witness: a nonempty table fetched at time 0 is served unchanged at
time 30 with TTL 60; any table is refetched at time 60. -/
theorem C5_cache_ttl_witness :
    get_conversion_rates ⟨some [("BTC", .vstr "2")], 0⟩ 30 [("BTC", .vstr "3")] 60 =
      ⟨[("BTC", .vstr "2")], ⟨some [("BTC", .vstr "2")], 0⟩, false⟩
    ∧ get_conversion_rates ⟨some [("BTC", .vstr "2")], 0⟩ 60 [("BTC", .vstr "3")] 60 =
      ⟨[("BTC", .vstr "3")], ⟨some [("BTC", .vstr "3")], 60⟩, true⟩ :=
  ⟨(C5_cache_ttl ⟨some [("BTC", .vstr "2")], 0⟩ [("BTC", .vstr "2")] [("BTC", .vstr "3")] 30 60).1
      rfl (by decide) (by norm_num),
   (C5_cache_ttl ⟨some [("BTC", .vstr "2")], 0⟩ [("BTC", .vstr "2")] [("BTC", .vstr "3")] 60 60).2
      (by norm_num)⟩

/-- C8: the stored credential is always the stripped form of the supplied
string (constructor and setter alike), a whitespace-only credential strips
to the empty string and so counts as unauthenticated, and a request that
requires a key fails with the AuthRequired message, leaving the heap
untouched and issuing zero transport requests. -/
theorem C8_credential (c0 : HashesClient) (s path method : String)
    (transport : String → String → Option (List (String × PyVal)) →
      Option PyContainer → Except PyErr PyDict)
    (h : Heap) (params data : Option ℕ) :
    (HashesClient.init s).api_key = pyStrip s
    ∧ (set_api_key c0 s).api_key = pyStrip s
    ∧ (s.data.all isPySpace → pyStrip s = "")
    ∧ (pyStrip s = "" →
        request_json transport h (HashesClient.init s).api_key path method params data true =
          ⟨h, .error (.hashesApiError "An API key is required for this action."), 0⟩) := by
  refine ⟨rfl, rfl, fun hall => ?_, fun hk => ?_⟩
  · have h1 : s.data.dropWhile isPySpace = [] :=
      List.dropWhile_eq_nil_iff.mpr (fun x hx => by
        simpa using List.all_eq_true.mp hall x hx)
    simp [pyStrip, h1]
  · have h2 : (HashesClient.init s).api_key = "" := hk
    rw [h2]
    rfl

/-- C8 witness: a whitespace-only credential at concrete inputs. -/
theorem C8_credential_witness :
    pyStrip "  " = ""
    ∧ request_json (fun _ _ _ _ => .ok []) [] (HashesClient.init "  ").api_key "/jobs" "GET"
        none none true =
      ⟨[], .error (.hashesApiError "An API key is required for this action."), 0⟩ :=
  ⟨(C8_credential (HashesClient.init "") "  " "/jobs" "GET" (fun _ _ _ _ => .ok []) [] none none).2.2.1
      (by decide),
   (C8_credential (HashesClient.init "") "  " "/jobs" "GET" (fun _ _ _ _ => .ok []) [] none none).2.2.2
      (by decide)⟩

/-- C10: a successful `/algorithms` fetch with an empty table makes
`fetch_and_update_algorithms_file` return `(False, {})` with no write
attempted — the very result a caught transport failure produces, so the two
are indistinguishable at this interface — and whenever a write is
attempted, the fetched table was nonempty. -/
theorem C10_sync_empty (algResult : Except PyErr (List (String × String)))
    (writeOk : Bool) (res : SyncResult) (m : String) :
    get_algorithms [] = .ok []
    ∧ fetch_and_update_algorithms_file (.ok []) writeOk = .ok ⟨false, [], none⟩
    ∧ fetch_and_update_algorithms_file (.error (.hashesApiError m)) writeOk = .ok ⟨false, [], none⟩
    ∧ (fetch_and_update_algorithms_file algResult writeOk = .ok res → res.written ≠ none →
        ∃ algs, algResult = .ok algs ∧ algs ≠ []) := by
  refine ⟨rfl, by simp [fetch_and_update_algorithms_file], by simp [fetch_and_update_algorithms_file],
    fun heq hw => ?_⟩
  rcases algResult with e | algs
  · rcases e with _ | _ | _ | msg <;> simp [fetch_and_update_algorithms_file] at heq
    subst heq
    simp at hw
  · rcases halgs : algs with _ | ⟨x, xs⟩
    · subst halgs
      simp [fetch_and_update_algorithms_file] at heq
      subst heq
      simp at hw
    · exact ⟨algs, by rw [halgs], by rw [halgs]; simp⟩

/-- C10 witness: a one-entry table is sorted, written and reported. -/
theorem C10_sync_empty_witness :
    fetch_and_update_algorithms_file (.ok [("1", "MD5")]) true =
      .ok ⟨true, [("1", "MD5")], some [("1", "MD5")]⟩
    ∧ (some [("1", "MD5")] : Option (List (String × String))) ≠ none
    ∧ ∃ algs, (.ok [("1", "MD5")] : Except PyErr (List (String × String))) = .ok algs ∧ algs ≠ [] :=
  ⟨by decide, by decide,
   (C10_sync_empty (.ok [("1", "MD5")]) true ⟨true, [("1", "MD5")], some [("1", "MD5")]⟩ "").2.2.2
     (by decide) (by decide)⟩

/-- One `download_left_lists` loop step adds the job's successful byte count
and appends its failure entry, if any. -/
lemma dlStep_bytes_failed (fetch : String → FetchOutcome) (destination : String)
    (st : DlState) (j : DJob) :
    (dlStep fetch destination st j).bytes_written =
      st.bytes_written + (jobOkChunks fetch j).length
    ∧ (dlStep fetch destination st j).failed =
      st.failed ++ (jobFailEntry fetch destination j).toList := by
  by_cases hj : j.leftList == ""
  · simp [dlStep, jobOkChunks, jobFailEntry, hj]
  · cases hf : fetch j.leftList with
    | httpError m => simp [dlStep, stream_download, jobOkChunks, jobFailEntry, hj, hf]
    | stream chunks err =>
        cases err with
        | none => simp [dlStep, stream_download, jobOkChunks, jobFailEntry, hj, hf]
        | some e => simp [dlStep, stream_download, jobOkChunks, jobFailEntry, hj, hf]

/-- A job that does not succeed writes no bytes. -/
lemma jobOkChunks_of_fail (fetch : String → FetchOutcome) (j : DJob)
    (h : jobSuccess fetch j = false) : jobOkChunks fetch j = [] := by
  by_cases hj : j.leftList == ""
  · simp [jobOkChunks, hj]
  · cases hf : fetch j.leftList with
    | httpError m => simp [jobOkChunks, hj, hf]
    | stream chunks err =>
        cases err with
        | none => simp [jobSuccess, hj, hf] at h
        | some e => simp [jobOkChunks, hj, hf]

/-- A failing step leaves the file and the append flag alone; a succeeding
step (with the flag already on) appends its bytes and keeps the flag on. -/
lemma dlStep_file_append (fetch : String → FetchOutcome) (destination : String)
    (st : DlState) (j : DJob) (hap : st.append = true) (hclean : cleanJob fetch j = true) :
    (dlStep fetch destination st j).file = st.file ++ jobOkChunks fetch j
    ∧ (dlStep fetch destination st j).append = true := by
  by_cases hj : j.leftList == ""
  · simp [dlStep, jobOkChunks, hj, hap]
  · cases hf : fetch j.leftList with
    | httpError m => simp [dlStep, stream_download, jobOkChunks, hj, hf, hap]
    | stream chunks err =>
        cases err with
        | none => simp [dlStep, stream_download, jobOkChunks, hj, hf, hap]
        | some e => simp [cleanJob, hj, hf] at hclean

/-- With the append flag still off, a clean step either fails leaving the
state alone, or succeeds truncating to exactly its own bytes. -/
lemma dlStep_file_start (fetch : String → FetchOutcome) (destination : String)
    (st : DlState) (j : DJob) (hap : st.append = false) (hclean : cleanJob fetch j = true) :
    (jobSuccess fetch j = false ∧ (dlStep fetch destination st j).file = st.file
      ∧ (dlStep fetch destination st j).append = false)
    ∨ (jobSuccess fetch j = true ∧ (dlStep fetch destination st j).file = jobOkChunks fetch j
      ∧ (dlStep fetch destination st j).append = true) := by
  by_cases hj : j.leftList == ""
  · exact Or.inl (by simp [dlStep, jobSuccess, hj, hap])
  · cases hf : fetch j.leftList with
    | httpError m => exact Or.inl (by simp [dlStep, stream_download, jobSuccess, hj, hf, hap])
    | stream chunks err =>
        cases err with
        | none =>
            exact Or.inr (by simp [dlStep, stream_download, jobSuccess, jobOkChunks, hj, hf, hap])
        | some e => simp [cleanJob, hj, hf] at hclean

/-- The loop's running byte total and failure list, over any job list. -/
lemma dl_loop_spec (fetch : String → FetchOutcome) (destination : String) (jobs : List DJob) :
    ∀ st : DlState,
      (jobs.foldl (dlStep fetch destination) st).bytes_written =
        st.bytes_written + (jobs.map (fun j => (jobOkChunks fetch j).length)).sum
      ∧ (jobs.foldl (dlStep fetch destination) st).failed =
        st.failed ++ jobs.filterMap (jobFailEntry fetch destination) := by
  induction jobs with
  | nil => intro st; simp
  | cons j js ih =>
      intro st
      have hstep := dlStep_bytes_failed fetch destination st j
      have hrec := ih (dlStep fetch destination st j)
      refine ⟨?_, ?_⟩
      · rw [List.foldl_cons, hrec.1, hstep.1]
        simp [Nat.add_assoc]
      · rw [List.foldl_cons, hrec.2, hstep.2]
        cases hfe : jobFailEntry fetch destination j <;> simp [List.filterMap_cons, hfe]

/-- Once the append flag is on, the loop appends exactly the successful
jobs' bytes, in order. -/
lemma dl_loop_file_append (fetch : String → FetchOutcome) (destination : String)
    (jobs : List DJob) :
    ∀ st : DlState, st.append = true → (∀ j ∈ jobs, cleanJob fetch j = true) →
      (jobs.foldl (dlStep fetch destination) st).file =
        st.file ++ (jobs.map (jobOkChunks fetch)).flatten := by
  induction jobs with
  | nil => intro st _ _; simp
  | cons j js ih =>
      intro st hap hclean
      have hstep := dlStep_file_append fetch destination st j hap (hclean j (by simp))
      rw [List.foldl_cons, ih (dlStep fetch destination st j) hstep.2
            (fun x hx => hclean x (by simp [hx])), hstep.1]
      simp

/-- From a cold start, the loop leaves a prior file untouched when no job
succeeds, and otherwise the file holds exactly the successful jobs' bytes
concatenated in job order (the first success truncates). -/
lemma dl_loop_file_start (fetch : String → FetchOutcome) (destination : String)
    (jobs : List DJob) :
    ∀ st : DlState, st.append = false → (∀ j ∈ jobs, cleanJob fetch j = true) →
      (jobs.foldl (dlStep fetch destination) st).file =
        if jobs.all (fun j => !jobSuccess fetch j) then st.file
        else (jobs.map (jobOkChunks fetch)).flatten := by
  induction jobs with
  | nil => intro st _ _; simp
  | cons j js ih =>
      intro st hap hclean
      rcases dlStep_file_start fetch destination st j hap (hclean j (by simp)) with
        ⟨hsf, hfile, happ⟩ | ⟨hst, hfile, happ⟩
      · rw [List.foldl_cons, ih (dlStep fetch destination st j) happ
              (fun x hx => hclean x (by simp [hx])), hfile]
        simp [List.all_cons, hsf, jobOkChunks_of_fail fetch j hsf]
      · rw [List.foldl_cons, dl_loop_file_append fetch destination js
              (dlStep fetch destination st j) happ (fun x hx => hclean x (by simp [hx])), hfile]
        simp [List.all_cons, hst]

/-- C7: `download_left_lists` raises the NoJobsSelected error exactly on the
empty job list, and then without touching the destination file; on any
nonempty job list it returns normally, with the ordered (jobId, message)
failure entries of exactly the failing jobs and a total equal to the bytes
written by the successful jobs. -/
theorem C7_download_failures (fetch : String → FetchOutcome) (jobs : List DJob)
    (destination : String) (file0 : List ℕ) :
    download_left_lists fetch [] destination file0 =
      (file0, .error "No jobs were selected for download.")
    ∧ (jobs ≠ [] →
        (download_left_lists fetch jobs destination file0).2 =
          .ok ((jobs.map (fun j => (jobOkChunks fetch j).length)).sum,
               jobs.filterMap (jobFailEntry fetch destination)))
    ∧ ((download_left_lists fetch jobs destination file0).2.isOk ↔ jobs ≠ []) := by
  have hspec := dl_loop_spec fetch destination jobs ⟨file0, 0, [], false⟩
  refine ⟨rfl, fun hne => ?_, ?_⟩
  · have hemp : jobs.isEmpty = false := by
      cases jobs with
      | nil => exact absurd rfl hne
      | cons x xs => simp
    simp only [download_left_lists, hemp, Bool.false_eq_true, if_false]
    rw [hspec.1, hspec.2]
    simp
  · cases jobs with
    | nil => simp [download_left_lists, Except.isOk, Except.toBool]
    | cons x xs => simp [download_left_lists, Except.isOk, Except.toBool]

/-- C7 witness: one succeeding job (7 bytes), one skipped for a missing URL,
one transport failure; the batch returns normally with both failures in
order and the successful byte count. -/
theorem C7_download_failures_witness :
    (download_left_lists
        (fun u => if u = "/a" then .stream [[1, 2, 3], [4, 5, 6, 7]] none else .httpError "boom")
        [⟨1, "/a"⟩, ⟨2, ""⟩, ⟨3, "/c"⟩] "out.txt" []).2 =
      .ok (7, [(2, "No left list URL"), (3, "Failed downloading '/c': boom")]) :=
  (C7_download_failures
      (fun u => if u = "/a" then .stream [[1, 2, 3], [4, 5, 6, 7]] none else .httpError "boom")
      [⟨1, "/a"⟩, ⟨2, ""⟩, ⟨3, "/c"⟩] "out.txt" []).2.1 (by decide)

/-- C1: over a batch of jobs none of which can leave a partial write (each
either succeeds or fails before writing, as in the claim's scenario of a
failed URL fetch), the destination file afterwards is exactly the
successful jobs' bytes concatenated in job order — the first success
truncates, every later success appends — the failures list holds exactly
the failing jobs' (id, message) entries in order, and the returned total
counts the successful bytes. Moreover the append flag is preserved
across any failing job and turned on by any success, so the append offset
continues correctly after a failure. -/
theorem C1_download_order (fetch : String → FetchOutcome) (jobs : List DJob)
    (destination : String) (file0 : List ℕ)
    (hne : jobs ≠ []) (hclean : ∀ j ∈ jobs, cleanJob fetch j = true) :
    download_left_lists fetch jobs destination file0 =
      ((if jobs.all (fun j => !jobSuccess fetch j) then file0
        else (jobs.map (jobOkChunks fetch)).flatten),
       .ok ((jobs.map (fun j => (jobOkChunks fetch j).length)).sum,
            jobs.filterMap (jobFailEntry fetch destination)))
    ∧ (∀ (st : DlState) (j : DJob), jobSuccess fetch j = false →
        (dlStep fetch destination st j).append = st.append)
    ∧ (∀ (st : DlState) (j : DJob), jobSuccess fetch j = true →
        (dlStep fetch destination st j).append = true) := by
  refine ⟨?_, fun st j hfail => ?_, fun st j hsucc => ?_⟩
  · have hemp : jobs.isEmpty = false := by
      cases jobs with
      | nil => exact absurd rfl hne
      | cons x xs => simp
    have hspec := dl_loop_spec fetch destination jobs ⟨file0, 0, [], false⟩
    have hfile := dl_loop_file_start fetch destination jobs ⟨file0, 0, [], false⟩ rfl hclean
    simp only [download_left_lists, hemp, Bool.false_eq_true, if_false]
    rw [Prod.ext_iff]
    refine ⟨hfile, ?_⟩
    rw [hspec.1, hspec.2]
    simp
  · by_cases hj : j.leftList == ""
    · simp [dlStep, hj]
    · cases hf : fetch j.leftList with
      | httpError m => simp [dlStep, stream_download, hj, hf]
      | stream chunks err =>
          cases err with
          | none => simp [jobSuccess, hj, hf] at hfail
          | some e => simp [dlStep, stream_download, hj, hf]
  · by_cases hj : j.leftList == ""
    · simp [jobSuccess, hj] at hsucc
    · cases hf : fetch j.leftList with
      | httpError m => simp [jobSuccess, hj, hf] at hsucc
      | stream chunks err =>
          cases err with
          | none => simp [dlStep, stream_download, hj, hf]
          | some e => simp [jobSuccess, hj, hf] at hsucc

/-- C1 witness: the claim's scenario — jobs A, B, C where B's URL fetch
fails — leaves the file holding A's bytes followed directly by C's bytes,
with exactly one failure entry, for B's id. -/
theorem C1_download_order_witness :
    download_left_lists
        (fun u => if u = "/a" then .stream [[1], [2]] none
          else if u = "/b" then .httpError "boom" else .stream [[3, 4]] none)
        [⟨10, "/a"⟩, ⟨11, "/b"⟩, ⟨12, "/c"⟩] "out.txt" [9, 9] =
      ([1, 2, 3, 4], .ok (4, [(11, "Failed downloading '/b': boom")])) :=
  (C1_download_order
      (fun u => if u = "/a" then .stream [[1], [2]] none
        else if u = "/b" then .httpError "boom" else .stream [[3, 4]] none)
      [⟨10, "/a"⟩, ⟨11, "/b"⟩, ⟨12, "/c"⟩] "out.txt" [9, 9] (by decide) (by decide)).1

lemma heapGet_alloc_fst (h : Heap) (c : PyContainer) (a : ℕ) (ha : a < h.length) :
    heapGet (heapAlloc h c).1 a = heapGet h a :=
  List.getD_append _ _ _ _ ha

lemma heapAlloc_snd (h : Heap) (c : PyContainer) : (heapAlloc h c).2 = h.length := rfl

lemma heapAlloc_fst_length (h : Heap) (c : PyContainer) :
    (heapAlloc h c).1.length = h.length + 1 := by simp [heapAlloc]

lemma heapGet_set_ne (h : Heap) (b : ℕ) (c : PyContainer) (a : ℕ) (hab : b ≠ a) :
    heapGet (heapSet h b c) a = heapGet h a := by
  rw [heapGet, heapGet, heapSet, List.getD_eq_getElem?_getD, List.getD_eq_getElem?_getD,
    List.getElem?_set_ne hab]

theorem C9_no_container_mutation
    (transport : String → String → Option (List (String × PyVal)) →
      Option PyContainer → Except PyErr PyDict)
    (h : Heap) (api_key path method : String) (params data : Option ℕ)
    (requires_api_key : Bool) (a : ℕ) (ha : a < h.length) :
    heapGet (request_json transport h api_key path method params data requires_api_key).heap a
      = heapGet h a := by
  simp only [request_json]
  split
  · rfl
  · split
    · split
      · rw [heapGet_set_ne _ _ _ _ (by rw [heapAlloc_snd]; omega), heapGet_alloc_fst _ _ _ ha]
      · split
        · rw [heapGet_set_ne _ _ _ _ (by rw [heapAlloc_snd, heapAlloc_fst_length, heapAlloc_fst_length]; omega),
            heapGet_alloc_fst _ _ _ (by rw [heapAlloc_fst_length, heapAlloc_fst_length]; omega),
            heapGet_alloc_fst _ _ _ (by rw [heapAlloc_fst_length]; omega),
            heapGet_alloc_fst _ _ _ ha]
        · split
          · rw [heapGet_set_ne _ _ _ _ (by rw [heapAlloc_snd, heapAlloc_fst_length]; omega),
              heapGet_alloc_fst _ _ _ (by rw [heapAlloc_fst_length]; omega),
              heapGet_alloc_fst _ _ _ ha]
          · rw [heapGet_set_ne _ _ _ _ (by rw [heapAlloc_snd, heapAlloc_fst_length]; omega),
              heapGet_alloc_fst _ _ _ (by rw [heapAlloc_fst_length]; omega),
              heapGet_alloc_fst _ _ _ ha]
    · rw [heapGet_alloc_fst _ _ _ ha]

/-- C9 witness: a POST with both a params dict and a data list supplied;
after the call both caller containers read back unchanged. -/
theorem C9_no_container_mutation_witness :
    heapGet ((request_json (fun _ _ _ _ => .ok [])
        [.pdict [("x", .vstr "1")], .plist [("y", .vint 2)]]
        "KEY" "/search" "POST" (some 0) (some 1) true).heap) 0 = .pdict [("x", .vstr "1")]
    ∧ heapGet ((request_json (fun _ _ _ _ => .ok [])
        [.pdict [("x", .vstr "1")], .plist [("y", .vint 2)]]
        "KEY" "/search" "POST" (some 0) (some 1) true).heap) 1 = .plist [("y", .vint 2)] :=
  ⟨C9_no_container_mutation (fun _ _ _ _ => .ok [])
      [.pdict [("x", .vstr "1")], .plist [("y", .vint 2)]]
      "KEY" "/search" "POST" (some 0) (some 1) true 0 (by decide),
   C9_no_container_mutation (fun _ _ _ _ => .ok [])
      [.pdict [("x", .vstr "1")], .plist [("y", .vint 2)]]
      "KEY" "/search" "POST" (some 0) (some 1) true 1 (by decide)⟩

/-- Code-point order on strings has no left-smaller partner of `[]`. -/
lemma listLtChar_nil_right : ∀ t : List Char, listLtChar t [] = false := by
  intro t; cases t <;> simp [listLtChar]

/-- Code-point order on strings is asymmetric. -/
lemma listLtChar_asymm : ∀ s t : List Char, listLtChar s t = true → listLtChar t s = false := by
  intro s
  induction s with
  | nil =>
      intro t h
      cases t with
      | nil => simp [listLtChar] at h
      | cons b bs => simp [listLtChar]
  | cons a as ih =>
      intro t h
      cases t with
      | nil => simp [listLtChar] at h
      | cons b bs =>
          simp only [listLtChar] at h ⊢
          by_cases h1 : a.toNat < b.toNat
          · have h2 : ¬ b.toNat < a.toNat := by omega
            simp [h1, h2]
          · by_cases h2 : b.toNat < a.toNat
            · simp [h1, h2] at h
            · simp [h1, h2] at h ⊢
              exact ih bs h

/-- Code-point order on strings is transitive. -/
lemma listLtChar_trans : ∀ s t u : List Char,
    listLtChar s t = true → listLtChar t u = true → listLtChar s u = true := by
  intro s
  induction s with
  | nil =>
      intro t u h1 h2
      cases u with
      | nil => rw [listLtChar_nil_right t] at h2; cases h2
      | cons c cs => simp [listLtChar]
  | cons a as ih =>
      intro t u h1 h2
      cases t with
      | nil => simp [listLtChar] at h1
      | cons b bs =>
          cases u with
          | nil => rw [listLtChar_nil_right] at h2; cases h2
          | cons c cs =>
              simp only [listLtChar] at h1 h2 ⊢
              by_cases hab : a.toNat < b.toNat <;> by_cases hbc : b.toNat < c.toNat
              · have : a.toNat < c.toNat := by omega
                simp [this]
              · by_cases hcb : c.toNat < b.toNat
                · simp [hbc, hcb] at h2
                · have hbc' : b.toNat = c.toNat := by omega
                  have : a.toNat < c.toNat := by omega
                  simp [this]
              · by_cases hba : b.toNat < a.toNat
                · simp [hab, hba] at h1
                · have : a.toNat < c.toNat := by omega
                  simp [this]
              · by_cases hba : b.toNat < a.toNat
                · simp [hab, hba] at h1
                · by_cases hcb : c.toNat < b.toNat
                  · simp [hbc, hcb] at h2
                  · have hac1 : ¬ a.toNat < c.toNat := by omega
                    have hac2 : ¬ c.toNat < a.toNat := by omega
                    simp [hab, hba] at h1
                    simp [hbc, hcb] at h2
                    simp [hac1, hac2]
                    exact ih bs cs h1 h2

/-- The Boolean comparison, characterized by key class: strings compare as
strings, numbers by exact value, and cross-class comparisons are false
(they raise). -/
lemma ltB_char (x y : SKey) :
    ltB x y = (if x.isStr && y.isStr then pyStrLt x.sval y.sval
               else if !x.isStr && !y.isStr then decide (x.qval < y.qval) else false) := by
  cases x <;> cases y <;>
    simp [ltB, pyLt, SKey.isStr, SKey.sval, SKey.qval]

/-- A successful strict key comparison goes only one way. -/
lemma ltB_asymm (x y : SKey) (h : ltB x y = true) : ltB y x = false := by
  rw [ltB_char] at h ⊢
  by_cases hx : x.isStr <;> by_cases hy : y.isStr <;> simp [hx, hy] at h ⊢
  · exact listLtChar_asymm _ _ h
  · exact le_of_lt h

/-- Successful strict key comparisons chain. -/
lemma ltB_trans (x y z : SKey) (h1 : ltB x y = true) (h2 : ltB y z = true) :
    ltB x z = true := by
  rw [ltB_char] at h1 h2 ⊢
  by_cases hx : x.isStr <;> by_cases hy : y.isStr <;> by_cases hz : z.isStr <;>
    simp [hx, hy, hz] at h1 h2 ⊢
  · exact listLtChar_trans _ _ _ h1 h2
  · exact lt_trans h1 h2

/-- A true strict comparison implies the two keys are of the same class. -/
lemma isStr_eq_of_ltB (x y : SKey) (h : ltB x y = true) : x.isStr = y.isStr := by
  cases x <;> cases y <;> simp [ltB, pyLt, SKey.isStr] at h ⊢

/-- On keys of the same class, the comparison succeeds with its Boolean
value. -/
lemma pyLt_eq_ok (x y : SKey) (hx : x.isStr = y.isStr) : pyLt x y = .ok (ltB x y) := by
  cases x <;> cases y <;> simp [pyLt, ltB, SKey.isStr] at hx ⊢

/-- Membership through stable insertion. -/
lemma insertP_mem {α : Type} {lt : α → α → Bool} (a : α) :
    ∀ (l : List α) (x : α), x ∈ insertP lt a l ↔ x = a ∨ x ∈ l := by
  intro l
  induction l with
  | nil => intro x; simp [insertP]
  | cons b bs ih =>
      intro x
      by_cases hab : lt a b
      · simp [insertP, hab]
      · simp [insertP, hab, ih]
        tauto

/-- An element no smaller than anything in the list is inserted at its end. -/
lemma insertP_all_ge {α : Type} {lt : α → α → Bool} (a : α) :
    ∀ l : List α, (∀ c ∈ l, lt a c = false) → insertP lt a l = l ++ [a] := by
  intro l
  induction l with
  | nil => intro _; simp [insertP]
  | cons b bs ih =>
      intro h
      have hb : lt a b = false := h b (by simp)
      simp [insertP, hb, ih (fun c hc => h c (by simp [hc]))]

/-- Insertion before a strictly larger last element never reaches it. -/
lemma insertP_append_last {α : Type} {lt : α → α → Bool} (a b : α) (hab : lt a b = true) :
    ∀ l : List α, insertP lt a (l ++ [b]) = insertP lt a l ++ [b] := by
  intro l
  induction l with
  | nil => simp [insertP, hab]
  | cons c cs ih =>
      by_cases hac : lt a c
      · simp [insertP, hac]
      · simp [insertP, hac, ih]

/-- Stable insertion preserves strict sortedness when the new element
compares strictly against every present element. -/
lemma insertP_pairwise {α : Type} {lt : α → α → Bool}
    (htrans : ∀ x y z, lt x y = true → lt y z = true → lt x z = true) (a : α) :
    ∀ l : List α, l.Pairwise (fun x y => lt x y = true) →
      (∀ c ∈ l, lt a c = true ∨ lt c a = true) →
      (insertP lt a l).Pairwise (fun x y => lt x y = true) := by
  intro l
  induction l with
  | nil => intro _ _; simp [insertP]
  | cons b bs ih =>
      intro hp hcmp
      rw [List.pairwise_cons] at hp
      by_cases hab : lt a b
      · rw [insertP, if_pos hab, List.pairwise_cons]
        refine ⟨fun c hc => ?_, List.pairwise_cons.mpr hp⟩
        rcases List.mem_cons.mp hc with rfl | hc2
        · exact hab
        · exact htrans a b c hab (hp.1 c hc2)
      · rw [insertP, if_neg hab, List.pairwise_cons]
        have hba : lt b a = true := by
          rcases hcmp b (by simp) with h | h
          · exact absurd h hab
          · exact h
        refine ⟨fun c hc => ?_, ih hp.2 (fun c hc => hcmp c (by simp [hc]))⟩
        rcases (insertP_mem a bs c).mp hc with rfl | hc2
        · exact hba
        · exact hp.1 c hc2

/-- `sortP` over a list extended on the right inserts the new element into
the sorted prefix. -/
lemma sortP_append {α : Type} (lt : α → α → Bool) (xs : List α) (a : α) :
    sortP lt (xs ++ [a]) = insertP lt a (sortP lt xs) := by
  simp [sortP, List.foldl_append]

/-- `sortP` permutes: same members. -/
lemma sortP_mem {α : Type} (lt : α → α → Bool) :
    ∀ (xs : List α) (x : α), x ∈ sortP lt xs ↔ x ∈ xs := by
  intro xs
  induction xs using List.reverseRecOn with
  | nil => intro x; simp [sortP]
  | append_singleton ys a ih =>
      intro x
      rw [sortP_append, insertP_mem, ih]
      simp
      tauto

/-- `sortP` sorts strictly when all members compare strictly. -/
lemma sortP_pairwise {α : Type} {lt : α → α → Bool}
    (htrans : ∀ x y z, lt x y = true → lt y z = true → lt x z = true) :
    ∀ xs : List α, xs.Pairwise (fun x y => lt x y = true ∨ lt y x = true) →
      (sortP lt xs).Pairwise (fun x y => lt x y = true) := by
  intro xs
  induction xs using List.reverseRecOn with
  | nil => intro _; simp [sortP]
  | append_singleton ys a ih =>
      intro hp
      rw [List.pairwise_append] at hp
      rw [sortP_append]
      refine insertP_pairwise htrans a (sortP lt ys) (ih hp.1) (fun c hc => ?_)
      have hc' : c ∈ ys := (sortP_mem lt ys c).mp hc
      rcases hp.2.2 c hc' a (by simp) with h | h
      · exact Or.inr h
      · exact Or.inl h

/-- Reversing a strict stable insertion equals inserting under the swapped
comparison into the reversed list. -/
lemma reverse_insertP {α : Type} {lt : α → α → Bool}
    (hasym : ∀ x y, lt x y = true → lt y x = false)
    (htrans : ∀ x y z, lt x y = true → lt y z = true → lt x z = true) (a : α) :
    ∀ l : List α, l.Pairwise (fun x y => lt x y = true) →
      (∀ c ∈ l, lt a c = true ∨ lt c a = true) →
      (insertP lt a l).reverse = insertP (fun x y => lt y x) a l.reverse := by
  intro l
  induction l with
  | nil => intro _ _; simp [insertP]
  | cons b bs ih =>
      intro hp hcmp
      rw [List.pairwise_cons] at hp
      by_cases hab : lt a b
      · rw [insertP, if_pos hab]
        have hall : ∀ c ∈ (b :: bs).reverse, (fun x y => lt y x) a c = false := by
          intro c hc
          have hcc : c ∈ b :: bs := List.mem_reverse.mp hc
          rcases List.mem_cons.mp hcc with rfl | hc2
          · exact hasym a c hab
          · exact hasym a c (htrans a b c hab (hp.1 c hc2))
        rw [insertP_all_ge a ((b :: bs).reverse) hall]
        simp
      · have hba : lt b a = true := by
          rcases hcmp b (by simp) with h | h
          · exact absurd h hab
          · exact h
        rw [insertP, if_neg hab]
        rw [List.reverse_cons, List.reverse_cons, insertP_append_last a b hba,
          ih hp.2 (fun c hc => hcmp c (by simp [hc]))]

/-- Reversing the strict stable ascending sort gives the stable sort under
the swapped comparison, provided all members compare strictly (no ties). -/
lemma reverse_sortP {α : Type} {lt : α → α → Bool}
    (hasym : ∀ x y, lt x y = true → lt y x = false)
    (htrans : ∀ x y z, lt x y = true → lt y z = true → lt x z = true) :
    ∀ xs : List α, xs.Pairwise (fun x y => lt x y = true ∨ lt y x = true) →
      (sortP lt xs).reverse = sortP (fun x y => lt y x) xs := by
  intro xs
  induction xs using List.reverseRecOn with
  | nil => simp [sortP]
  | append_singleton ys a ih =>
      intro hp
      rw [List.pairwise_append] at hp
      rw [sortP_append, sortP_append,
        reverse_insertP hasym htrans a (sortP lt ys) (sortP_pairwise htrans ys hp.1)
          (fun c hc => ?_), ih hp.1]
      have hc' : c ∈ ys := (sortP_mem lt ys c).mp hc
      rcases hp.2.2 c hc' a (by simp) with h | h
      · exact Or.inr h
      · exact Or.inl h

/-- When every needed comparison succeeds, monadic insertion equals pure
insertion. -/
lemma insertE_eq_insertP {α : Type} (lt : α → α → Except PyErr Bool)
    (ltb : α → α → Bool) (a : α) :
    ∀ l : List α, (∀ b ∈ l, lt a b = .ok (ltb a b)) →
      insertE lt a l = .ok (insertP ltb a l) := by
  intro l
  induction l with
  | nil => intro _; rfl
  | cons b bs ih =>
      intro h
      by_cases hab : ltb a b = true
      · have hb : lt a b = .ok true := by rw [h b (by simp), hab]
        simp [insertE, insertP, hb, hab]
      · have hab' : ltb a b = false := by simpa using hab
        have hb : lt a b = .ok false := by rw [h b (by simp), hab']
        simp [insertE, insertP, hb, hab', ih (fun c hc => h c (by simp [hc]))]

/-- When every pairwise comparison succeeds, the monadic sort equals the
pure sort. -/
lemma sortE_loop_eq {α : Type} (lt : α → α → Except PyErr Bool) (ltb : α → α → Bool) :
    ∀ (xs acc : List α),
      (∀ x y, (x ∈ xs ∨ x ∈ acc) → (y ∈ xs ∨ y ∈ acc) → lt x y = .ok (ltb x y)) →
      List.foldlM (fun acc a => insertE lt a acc) acc xs =
        .ok (List.foldl (fun acc a => insertP ltb a acc) acc xs) := by
  intro xs
  induction xs with
  | nil => intro acc _; rfl
  | cons x xs ih =>
      intro acc h
      have hstep : insertE lt x acc = .ok (insertP ltb x acc) :=
        insertE_eq_insertP lt ltb x acc (fun b hb => h x b (Or.inl (by simp)) (Or.inr hb))
      rw [List.foldlM_cons, hstep]
      show List.foldlM (fun acc a => insertE lt a acc) (insertP ltb x acc) xs = _
      refine ih (insertP ltb x acc) (fun u v hu hv => h u v ?_ ?_)
      · rcases hu with hu | hu
        · exact Or.inl (by simp [hu])
        · rcases (insertP_mem x acc u).mp hu with rfl | hu2
          · exact Or.inl (by simp)
          · exact Or.inr hu2
      · rcases hv with hv | hv
        · exact Or.inl (by simp [hv])
        · rcases (insertP_mem x acc v).mp hv with rfl | hv2
          · exact Or.inl (by simp)
          · exact Or.inr hv2

/-- `sortE` equals `sortP` on lists all of whose pairs compare without a
TypeError. -/
lemma sortE_eq_sortP {α : Type} (lt : α → α → Except PyErr Bool) (ltb : α → α → Bool)
    (xs : List α) (h : ∀ x y, x ∈ xs → y ∈ xs → lt x y = .ok (ltb x y)) :
    sortE lt xs = .ok (sortP ltb xs) :=
  sortE_loop_eq lt ltb xs []
    (fun x y hx hy => h x y (hx.resolve_right (by simp)) (hy.resolve_right (by simp)))

/-- The `get_jobs` filters only remove rows. -/
lemma filterJobs_sublist (cf af : Option (List String)) (jobs : List PyDict) :
    (filterJobs cf af jobs).Sublist jobs := by
  simp only [filterJobs]
  split <;> split <;>
    first
      | exact (List.filter_sublist _).trans (List.filter_sublist _)
      | exact List.filter_sublist _
      | exact List.Sublist.refl _

/-- C6 (amended): when the rows that survive the filters carry pairwise
strictly-comparable sort keys (no ties, no mixed-class pair), sorting
descending equals sorting ascending and reversing; with tied keys the two
differ, because Python's stable sort keeps ties in original order under
both directions while reversing flips them. -/
theorem C6_descending_symmetry (payloadList : List PyDict) (sortby : String)
    (cf af : Option (List String))
    (hkeys : payloadList.Pairwise (fun r1 r2 =>
      ltB (jobKey sortby r1) (jobKey sortby r2) = true ∨
      ltB (jobKey sortby r2) (jobKey sortby r1) = true)) :
    get_jobs payloadList sortby true cf af =
      (get_jobs payloadList sortby false cf af).map List.reverse := by
  have hrowsPW := hkeys.sublist (filterJobs_sublist cf af payloadList)
  set rows := filterJobs cf af payloadList with hrows
  have hsym : ∀ x ∈ rows, ∀ y ∈ rows, x ≠ y →
      (ltB (jobKey sortby x) (jobKey sortby y) = true ∨
        ltB (jobKey sortby y) (jobKey sortby x) = true) := by
    intro x hx y hy hxy
    exact List.Pairwise.forall (fun x y h => h.symm) hrowsPW hx hy hxy
  have hclass : ∀ x ∈ rows, ∀ y ∈ rows,
      (jobKey sortby x).isStr = (jobKey sortby y).isStr := by
    intro x hx y hy
    by_cases hxy : x = y
    · rw [hxy]
    · rcases hsym x hx y hy hxy with h | h
      · exact isStr_eq_of_ltB _ _ h
      · exact (isStr_eq_of_ltB _ _ h).symm
  have hasc : sortE (jobLt sortby false) rows =
      .ok (sortP (fun r1 r2 => ltB (jobKey sortby r1) (jobKey sortby r2)) rows) :=
    sortE_eq_sortP _ _ rows (fun x y hx hy => by
      simp only [jobLt, Bool.false_eq_true, if_false]
      exact pyLt_eq_ok _ _ (hclass x hx y hy))
  have hdesc : sortE (jobLt sortby true) rows =
      .ok (sortP (fun r1 r2 => ltB (jobKey sortby r2) (jobKey sortby r1)) rows) :=
    sortE_eq_sortP _ _ rows (fun x y hx hy => by
      simp only [jobLt, if_true]
      exact pyLt_eq_ok _ _ (hclass y hy x hx))
  have hrev := @reverse_sortP _ (fun r1 r2 => ltB (jobKey sortby r1) (jobKey sortby r2))
    (fun x y h => ltB_asymm _ _ h) (fun x y z h1 h2 => ltB_trans _ _ _ h1 h2) rows hrowsPW
  show sortE (jobLt sortby true) rows = (sortE (jobLt sortby false) rows).map List.reverse
  rw [hasc, hdesc]
  show _ = Except.ok ((sortP (fun r1 r2 => ltB (jobKey sortby r1) (jobKey sortby r2)) rows).reverse)
  rw [hrev]

/-- C6 counterexample: two jobs with the same sort key "5" and different
ids. The stable sort keeps them in original order under both directions, so
descending differs from ascending-then-reversed. -/
theorem C6_counterexample :
    get_jobs [[("k", .vstr "5"), ("id", .vint 1)], [("k", .vstr "5"), ("id", .vint 2)]]
        "k" true none none ≠
      (get_jobs [[("k", .vstr "5"), ("id", .vint 1)], [("k", .vstr "5"), ("id", .vint 2)]]
        "k" false none none).map List.reverse := by
  decide

/-- C6 witness: three jobs with distinct integer-valued keys. -/
theorem C6_descending_symmetry_witness :
    get_jobs [[("k", .vint 2)], [("k", .vint 1)], [("k", .vint 3)]] "k" true none none =
      (get_jobs [[("k", .vint 2)], [("k", .vint 1)], [("k", .vint 3)]] "k" false none none).map
        List.reverse :=
  C6_descending_symmetry [[("k", .vint 2)], [("k", .vint 1)], [("k", .vint 3)]] "k" none none
    (by decide)
